import Mathlib

/-!
Verification development for the deterministic workload-computation engine of
the gravity-swarm participant node (src/index.ts).  The engine's task
processors, PRNG, FFT length computation and consensus-mode dispatcher are
shallowly embedded below; machine 32-bit arithmetic is modelled as `Nat`
with explicit `% 2^32`, and the SHA-256 primitive (node:crypto
`createHash("sha256")` over the UTF-8 encoding of the input string) is
implemented concretely so that results can be evaluated by the kernel.

IEEE-754 double-precision operations (used only by the spectral kernels and
Monte Carlo) are abstracted as a `FloatOps` record: every double value is
represented by the exact rational it denotes, and each parameter models the
corresponding rounded double operation.  All theorems about the
float-dependent processors are quantified over an arbitrary `FloatOps`, so
they hold in particular for the actual double semantics.
-/

namespace GravitySwarm

/-- 2^32, the modulus of unsigned 32-bit arithmetic. -/
def m32 : Nat := 4294967296

/-! ## SHA-256 (the `hash` primitive of the spec, §6)

A direct implementation of FIPS 180-4 over byte lists, with 32-bit words
represented as `Nat` values below `m32`.  This embeds node's
`createHash("sha256").update(s).digest("hex")` for a string `s`,
including the UTF-8 encoding step. -/

/-- UTF-8 encoding of a single code point (as node's hash update performs). -/
def utf8Bytes (c : Char) : List Nat :=
  let n := c.toNat
  if n < 128 then [n]
  else if n < 2048 then [192 ||| (n >>> 6), 128 ||| (n &&& 63)]
  else if n < 65536 then
    [224 ||| (n >>> 12), 128 ||| ((n >>> 6) &&& 63), 128 ||| (n &&& 63)]
  else
    [240 ||| (n >>> 18), 128 ||| ((n >>> 12) &&& 63),
     128 ||| ((n >>> 6) &&& 63), 128 ||| (n &&& 63)]

/-- The UTF-8 byte sequence of a string. -/
def strBytes (s : String) : List Nat :=
  s.data.foldr (fun c acc => utf8Bytes c ++ acc) []

/-- Right rotation of a 32-bit word. -/
def rotr (x n : Nat) : Nat := ((x >>> n) ||| (x <<< (32 - n))) % m32

/-- SHA-256 Σ₀. -/
def bSig0 (x : Nat) : Nat := rotr x 2 ^^^ rotr x 13 ^^^ rotr x 22

/-- SHA-256 Σ₁. -/
def bSig1 (x : Nat) : Nat := rotr x 6 ^^^ rotr x 11 ^^^ rotr x 25

/-- SHA-256 σ₀. -/
def sSig0 (x : Nat) : Nat := rotr x 7 ^^^ rotr x 18 ^^^ (x >>> 3)

/-- SHA-256 σ₁. -/
def sSig1 (x : Nat) : Nat := rotr x 17 ^^^ rotr x 19 ^^^ (x >>> 10)

/-- SHA-256 Ch, with 32-bit complement written as xor with `2^32 - 1`. -/
def shaCh (x y z : Nat) : Nat := (x &&& y) ^^^ ((x ^^^ 4294967295) &&& z)

/-- SHA-256 Maj. -/
def shaMaj (x y z : Nat) : Nat := (x &&& y) ^^^ (x &&& z) ^^^ (y &&& z)

/-- The 64 SHA-256 round constants (decimal). -/
def shaK : List Nat :=
  [1116352408, 1899447441, 3049323471, 3921009573, 961987163,
   1508970993, 2453635748, 2870763221, 3624381080, 310598401,
   607225278, 1426881987, 1925078388, 2162078206, 2614888103,
   3248222580, 3835390401, 4022224774, 264347078, 604807628,
   770255983, 1249150122, 1555081692, 1996064986, 2554220882,
   2821834349, 2952996808, 3210313671, 3336571891, 3584528711,
   113926993, 338241895, 666307205, 773529912, 1294757372,
   1396182291, 1695183700, 1986661051, 2177026350, 2456956037,
   2730485921, 2820302411, 3259730800, 3345764771, 3516065817,
   3600352804, 4094571909, 275423344, 430227734, 506948616,
   659060556, 883997877, 958139571, 1322822218, 1537002063,
   1747873779, 1955562222, 2024104815, 2227730452, 2361852424,
   2428436474, 2756734187, 3204031479, 3329325298]

/-- Big-endian byte decomposition of `n` into `k` bytes. -/
def natBytesBE (n k : Nat) : List Nat :=
  (List.range k).map (fun i => (n >>> (8 * (k - 1 - i))) &&& 255)

/-- SHA-256 padding: append 0x80, zero bytes to 56 mod 64, then the 64-bit
big-endian bit length. -/
def padBytes (msg : List Nat) : List Nat :=
  let len := msg.length
  let zeros := (64 + 56 - ((len + 1) % 64)) % 64
  msg ++ [128] ++ List.replicate zeros 0 ++ natBytesBE (len * 8) 8

/-- Group bytes into big-endian 32-bit words (length assumed divisible by 4). -/
def toWords : List Nat → List Nat
  | b0 :: b1 :: b2 :: b3 :: rest =>
      (((b0 * 256 + b1) * 256 + b2) * 256 + b3) :: toWords rest
  | _ => []

/-- The 16-word blocks of a word list. -/
def toBlocks (ws : List Nat) : List (List Nat) :=
  (List.range (ws.length / 16)).map (fun b => ((ws.drop (16 * b)).take 16))

/-- One extension step of the message schedule: append word `w.length` given
the previous words. -/
def extendStep (w : List Nat) : List Nat :=
  let l := w.length
  w ++ [(sSig1 (w.getD (l - 2) 0) + w.getD (l - 7) 0 +
         sSig0 (w.getD (l - 15) 0) + w.getD (l - 16) 0) % m32]

/-- Iterate `extendStep` `fuel` times (fuel 48 extends 16 words to 64). -/
def extendGo : Nat → List Nat → List Nat
  | 0, w => w
  | fuel + 1, w => extendGo fuel (extendStep w)

/-- The eight 32-bit working variables of the SHA-256 compression function. -/
structure Hash8 where
  a : Nat
  b : Nat
  c : Nat
  d : Nat
  e : Nat
  f : Nat
  g : Nat
  h : Nat
deriving DecidableEq, Repr

/-- One SHA-256 round on the working variables, given `(k, w)`. -/
def shaRound (st : Hash8) (kw : Nat × Nat) : Hash8 :=
  let t1 := (st.h + bSig1 st.e + shaCh st.e st.f st.g + kw.1 + kw.2) % m32
  let t2 := (bSig0 st.a + shaMaj st.a st.b st.c) % m32
  ⟨(t1 + t2) % m32, st.a, st.b, st.c, (st.d + t1) % m32, st.e, st.f, st.g⟩

/-- Process one 16-word block: extend to 64 words, run 64 rounds, and add
back into the chaining state modulo 2^32. -/
def shaBlock (st : Hash8) (block : List Nat) : Hash8 :=
  let w := extendGo 48 block
  let r := (shaK.zip w).foldl shaRound st
  ⟨(st.a + r.a) % m32, (st.b + r.b) % m32, (st.c + r.c) % m32,
   (st.d + r.d) % m32, (st.e + r.e) % m32, (st.f + r.f) % m32,
   (st.g + r.g) % m32, (st.h + r.h) % m32⟩

/-- The SHA-256 initial hash value (decimal). -/
def shaH0 : Hash8 :=
  ⟨1779033703, 3144134277, 1013904242, 2773480762,
   1359893119, 2600822924, 528734635, 1541459225⟩

/-- SHA-256 digest (as eight 32-bit words) of a byte list. -/
def sha256words (msg : List Nat) : Hash8 :=
  (toBlocks (toWords (padBytes msg))).foldl shaBlock shaH0

/-- Lowercase hex digit for a nibble. -/
def hexChar (n : Nat) : Char :=
  if n < 10 then Char.ofNat (48 + n) else Char.ofNat (87 + n)

/-- The eight lowercase hex digits of a 32-bit word, most significant first. -/
def wordHex (w : Nat) : List Char :=
  (List.range 8).map (fun i => hexChar ((w >>> (4 * (7 - i))) &&& 15))

/-- `sha256hex s` is the lowercase-hex SHA-256 digest of the UTF-8 bytes of
`s`: the embedding of `sha256hex` from src/index.ts. -/
def sha256hex (s : String) : String :=
  let d := sha256words (strBytes s)
  String.mk (wordHex d.a ++ wordHex d.b ++ wordHex d.c ++ wordHex d.d ++
             wordHex d.e ++ wordHex d.f ++ wordHex d.g ++ wordHex d.h)

example : sha256hex "abc" =
    "ba7816bf8f01cfea414140de5dae2223b00361a396177a9cb410ff61f20015ad" := by
  decide

example : sha256hex "" =
    "e3b0c44298fc1c149afbf4c8996fb92427ae41e4649b934ca495991b7852b855" := by
  decide

/-! ## Seeded PRNG (xorshift128+), src/index.ts lines 76-96

JavaScript strings are UTF-16 code-unit sequences; `charCodeAt` and
`length` work on code units, so the seed-folding loop is a left-to-right
walk over the UTF-16 units.  All 32-bit quantities are `Nat` values below
`m32`; JS `>>> 0` is `% m32`, `<<` on a 32-bit pattern is shift then
`% m32`, and `^`/`>>>` act directly on the unsigned bit pattern. -/

/-- The UTF-16 code units of a string (surrogate pairs for astral planes). -/
def utf16Units (s : String) : List Nat :=
  s.data.foldr
    (fun c acc =>
      (if c.toNat < 65536 then [c.toNat]
       else
         [55296 + ((c.toNat - 65536) >>> 10), 56320 + ((c.toNat - 65536) &&& 1023)]) ++ acc)
    []

/-- The seed-folding loop of `xorshift128plus`:
`s0 = (s0*31 + code) >>> 0; s1 = (s1*37 + code) >>> 0` over the code units
in order (the multiply-adds are exact in doubles, so `% m32` is the whole
effect of `>>> 0`). -/
def xsInitGo : List Nat → Nat → Nat → Nat × Nat
  | [], s0, s1 => (s0, s1)
  | u :: rest, s0, s1 => xsInitGo rest ((s0 * 31 + u) % m32) ((s1 * 37 + u) % m32)

/-- Initial PRNG state from a seed: fold the code units, then force either
accumulator to 1 if it is 0 (`if (s0 === 0) s0 = 1` etc.). -/
def xsInit (seed : String) : Nat × Nat :=
  let p := xsInitGo (utf16Units seed) 0 0
  (if p.1 = 0 then 1 else p.1, if p.2 = 0 then 1 else p.2)

/-- One step of the generator closure: returns the new state and the output
`(s0 + s1) >>> 0`.  JS stores possibly-negative int32 values in `x`/`s1`,
but every operation used (`^`, `<<`, `>>>`, `+` followed by `>>> 0`)
depends only on the 32-bit pattern, so the unsigned-pattern model is
exact. -/
def xsStep (st : Nat × Nat) : (Nat × Nat) × Nat :=
  let x0 := st.1
  let y := st.2
  let x1 := x0 ^^^ ((x0 <<< 23) % m32)
  let x2 := x1 ^^^ (x1 >>> 17)
  let x3 := x2 ^^^ y
  let x4 := x3 ^^^ (y >>> 26)
  ((y, x4), (y + x4) % m32)

/-- The first `count` outputs of the generator seeded with `seed`. -/
def xsOutputsGo (st : Nat × Nat) : Nat → List Nat
  | 0 => []
  | count + 1 =>
      let s := xsStep st
      s.2 :: xsOutputsGo s.1 count

/-- The output stream of `xorshift128plus(seed)`, as a list of the first
`count` values. -/
def xsOutputs (seed : String) (count : Nat) : List Nat :=
  xsOutputsGo (xsInit seed) count

/-! ## FFT length (`let n = 1; while (n < shardSize) n <<= 1;`)

The loop doubles `n` starting from 1 until `n ≥ shardSize`.  JS `n <<= 1`
is NOT unbounded doubling: `<<` converts to a signed 32-bit integer and
wraps, so the loop's states are `1, 2, …, 2^30`, then `-2^31`, then the
absorbing state `0`.  For `shardSize ≤ 2^30` the loop exits before any
wrap; for `shardSize > 2^30` it wraps to `-2^31` and then loops on `0 <
shardSize` forever, never producing a length.

`fftLenJS` below embeds the loop faithfully over signed 32-bit states,
with `none` for non-termination; `fftLen` is the idealized unbounded
doubling (the smallest power of two ≥ `shardSize`), which agrees with
the loop exactly on its terminating range `shardSize ≤ 2^30` (theorems
`fftLenJS_eq_fftLen` and `fftLenJS_none`).  The spectral processors are
defined over `fftLen`; they model the source faithfully precisely where
the source terminates at all (the spec bounds shard_size externally at
8192). -/

/-- JS ToInt32: wrap an integer to the signed 32-bit range. -/
def toInt32 (x : Int) : Int := (x + 2147483648) % 4294967296 - 2147483648

/-- The source loop over signed 32-bit states: `n <<= 1` is
`toInt32 (n * 2)`.  Each iteration (including the final failed test)
consumes one fuel; fuel exhaustion gives `none`. -/
def fftLenGoJS (s : Nat) : Int → Nat → Option Int
  | _, 0 => none
  | n, fuel + 1 =>
      if n < (s : Int) then fftLenGoJS s (toInt32 (n * 2)) fuel else some n

/-- The FFT length actually computed by the source loop, or `none` when
the loop never terminates.  Fuel 40 is exact: a terminating run exits
within 32 tests (proved in `fftLenJS_eq_fftLen`), and on the divergent
range the result is `none` for every fuel (`fftLenGoJS_pow_diverges`),
so `none` genuinely means the loop runs forever. -/
def fftLenJS (s : Nat) : Option Int := fftLenGoJS s 1 40

/-- The idealized doubling loop body over unbounded integers; `fuel`
bounds the remaining iterations. -/
def fftLenGo (s : Nat) : Nat → Nat → Nat
  | n, 0 => n
  | n, fuel + 1 => if n < s then fftLenGo s (n * 2) fuel else n

/-- The smallest power of two ≥ `s` (with 1 for `s ≤ 1`): the FFT length
the spectral kernels use, equal to the source loop's result whenever
that loop terminates (`s ≤ 2^30`). -/
def fftLen (s : Nat) : Nat := fftLenGo s 1 s

/-! ## Abstracted IEEE-754 double operations

`FloatOps` packages the double-precision primitives the source uses.  A
double value is represented by the exact rational it denotes; each field
models the corresponding rounded operation: `fadd`/`fsub`/`fmul`/`fdiv`
are JS `+ - * /`, `fsqrt` is `Math.sqrt`, `twiddle len` is the pair
`(Math.cos(-2π/len), Math.sin(-2π/len))`, and `toFixed d q` is
`Number.prototype.toFixed(d)`.  Comparisons of double values (`<`, `>`)
are exact on the represented rationals, so they are taken directly from
the order on `ℚ`.  Theorems quantify over an arbitrary `F : FloatOps`. -/

structure FloatOps where
  fadd : ℚ → ℚ → ℚ
  fsub : ℚ → ℚ → ℚ
  fmul : ℚ → ℚ → ℚ
  fdiv : ℚ → ℚ → ℚ
  fsqrt : ℚ → ℚ
  twiddle : Nat → ℚ × ℚ
  toFixed : Nat → ℚ → String

/-- A concrete instance (exact rational arithmetic, unit twiddles): used
only to instantiate universally-quantified theorems at a specific
`FloatOps`. -/
def ratF : FloatOps :=
  ⟨(· + ·), (· - ·), (· * ·), (· / ·), id, fun _ => (1, 0), fun _ q => toString q⟩

/-- A buffer (JS `Float64Array`) as a total function from index to value. -/
def Buf : Type := Nat → ℚ

/-- Functional update of a buffer at one index. -/
def updF (f : Buf) (i : Nat) (v : ℚ) : Buf :=
  fun k => if k = i then v else f k

/-- `generateData(seed, size)`: `data[i] = (rng()/4294967296)*2 - 1`,
with the `size` successive generator outputs.  (Indices ≥ `size` are 0,
matching the zero-filled `Float64Array` tail never being written.) -/
def generateData (F : FloatOps) (seed : String) (size : Nat) : Buf :=
  let vals := xsOutputs seed size
  fun i =>
    if i < size then
      F.fsub (F.fmul (F.fdiv ((vals.getD i 0 : Nat) : ℚ) 4294967296) 2) 1
    else 0

/-! ## FFT (radix-2 Cooley-Tukey), src/index.ts lines 107-142 -/

/-- The inner bit-reversal loop `for (; j & bit; bit >>= 1) j ^= bit;`,
returning the final `(j, bit)`.  Fuel-based structural recursion; the
loop halves `bit` each iteration so any fuel above `log2 bit` is exact. -/
def revLoop : Nat → Nat → Nat → Nat × Nat
  | j, bit, 0 => (j, bit)
  | j, bit, fuel + 1 =>
      if j &&& bit ≠ 0 then revLoop (j ^^^ bit) (bit >>> 1) fuel else (j, bit)

/-- The bit-reversal permutation pass: iterates `i` from 1 to `n-1`
carrying `j`, swapping `re`/`im` entries when `i < j`. -/
def bitrevPass (n : Nat) (re im : Buf) : Buf × Buf :=
  let st :=
    (List.range (n - 1)).foldl
      (fun (st : Buf × Buf × Nat) i0 =>
        let i := i0 + 1
        let rb := revLoop st.2.2 (n >>> 1) 64
        let j := rb.1 ^^^ rb.2
        if i < j then
          (updF (updF st.1 i (st.1 j)) j (st.1 i),
           updF (updF st.2.1 i (st.2.1 j)) j (st.2.1 i), j)
        else (st.1, st.2.1, j))
      (re, im, 0)
  (st.1, st.2.1)

/-- One butterfly stage of length `len` over the block starting at `i`,
walking `j` from 0 to `len/2 - 1` with a running complex twiddle factor
(initialised to 1, rotated by complex multiplication each step). -/
def stageBlock (F : FloatOps) (wRe wIm : ℚ) (len i : Nat) (st : Buf × Buf) :
    Buf × Buf :=
  let r :=
    (List.range (len / 2)).foldl
      (fun (acc : Buf × Buf × ℚ × ℚ) j =>
        let re := acc.1
        let im := acc.2.1
        let curRe := acc.2.2.1
        let curIm := acc.2.2.2
        let a := i + j
        let b := i + j + len / 2
        let uRe := re a
        let uIm := im a
        let vRe := F.fsub (F.fmul (re b) curRe) (F.fmul (im b) curIm)
        let vIm := F.fadd (F.fmul (re b) curIm) (F.fmul (im b) curRe)
        let re2 := updF (updF re a (F.fadd uRe vRe)) b (F.fsub uRe vRe)
        let im2 := updF (updF im a (F.fadd uIm vIm)) b (F.fsub uIm vIm)
        let tmpRe := F.fsub (F.fmul curRe wRe) (F.fmul curIm wIm)
        let curIm2 := F.fadd (F.fmul curRe wIm) (F.fmul curIm wRe)
        (re2, im2, tmpRe, curIm2))
      (st.1, st.2, 1, 0)
  (r.1, r.2.1)

/-- Fuel-based floor base-2 logarithm (kernel-evaluable; equal to
`Nat.log2` whenever the fuel is at least `n`, see `nlog2_eq_log2`). -/
def nlog2Go : Nat → Nat → Nat
  | 0, _ => 0
  | fuel + 1, n => if n ≥ 2 then nlog2Go fuel (n / 2) + 1 else 0

/-- Floor base-2 logarithm; the value of JS `Math.floor(Math.log2 n)` for
positive integer `n` (exact: `Math.log2` is exact at powers of two, and
elsewhere its double rounding error cannot cross an integer). -/
def nlog2 (n : Nat) : Nat := nlog2Go n n

/-- In-place FFT of the length-`n` buffers (`n = re.length` at the call
sites): bit-reversal pass, then butterfly stages with `len` doubling from
2 while `len ≤ n`; the stage twiddle base is `(cos, sin)` of `-2π/len`.
The stages are enumerated as `len = 2^(k+1)` for `k < log2 n`, exactly
the powers of two in `[2, n]`. -/
def fft (F : FloatOps) (n : Nat) (re im : Buf) : Buf × Buf :=
  let p := bitrevPass n re im
  (List.range (nlog2 n)).foldl
    (fun (st : Buf × Buf) k =>
      let len := 2 ^ (k + 1)
      let w := F.twiddle len
      (List.range ((n + len - 1) / len)).foldl
        (fun st2 b => stageBlock F w.1 w.2 len (b * len) st2) st)
    p

/-! ## Task processors, src/index.ts lines 146-300

Each processor returns a `TaskResult`; processors whose source returns
only `{ output_hash }` leave `output_value` as `none`. -/

/-- A processor result (`{output_hash, output_value?}`). -/
structure TaskResult where
  output_hash : String
  output_value : Option String
deriving DecidableEq, Repr

/-- A peer response supplied to the judging processor. -/
structure ResponseData where
  output_hash : String
  output_value : Option String
  index : Option Nat
deriving DecidableEq, Repr

/-- The magnitude `Math.sqrt(re[i]*re[i] + im[i]*im[i])` at index `i`. -/
def magAt (F : FloatOps) (re im : Buf) (i : Nat) : ℚ :=
  F.fsqrt (F.fadd (F.fmul (re i) (re i)) (F.fmul (im i) (im i)))

/-- The shared spectral pipeline: round `shardSize` up to `n = fftLen`,
generate `n` samples as the real channel, zero imaginary, run the FFT. -/
def spectrum (F : FloatOps) (seed : String) (shardSize : Nat) :
    Nat × (Buf × Buf) :=
  let n := fftLen shardSize
  (n, fft F n (generateData F seed n) (fun _ => 0))

/-- `processFFT` (task types fft/spectral): magnitudes formatted to 6
decimal places, joined with commas, hashed. -/
def processFFT (F : FloatOps) (seed : String) (shardSize : Nat) : TaskResult :=
  let s := spectrum F seed shardSize
  let n := s.1
  let magStr :=
    String.intercalate ","
      ((List.range n).map (fun i => F.toFixed 6 (magAt F s.2.1 s.2.2 i)))
  ⟨sha256hex magStr, none⟩

/-- The SHA-chain iteration `h = sha256hex h`, `rounds` times. -/
def shaChainGo : Nat → String → String
  | 0, h => h
  | rounds + 1, h => shaChainGo rounds (sha256hex h)

/-- `processShaChain`: `rounds = min(shardSize, 10000)` hash applications
starting from the seed. -/
def processShaChain (seed : String) (shardSize : Nat) : TaskResult :=
  ⟨shaChainGo (min shardSize 10000) seed, none⟩

/-- The Monte Carlo sampling loop: for each iteration draw `x` then `y`,
each `rng()/4294967296`, and count `x*x + y*y < 1.0` (the comparison of
the computed double against 1 is exact on the represented rationals). -/
def mcInside (F : FloatOps) (outs : List Nat) : Nat → Nat
  | 0 => 0
  | i + 1 =>
      let x := F.fdiv ((outs.getD (2 * i) 0 : Nat) : ℚ) 4294967296
      let y := F.fdiv ((outs.getD (2 * i + 1) 0 : Nat) : ℚ) 4294967296
      mcInside F outs i +
        (if F.fadd (F.fmul x x) (F.fmul y y) < 1 then 1 else 0)

/-- `processMonteCarlo`: the estimate `(4.0 * inside) / shardSize` is
formatted with `toFixed(10)` and hashed.  For `shardSize = 0` the JS
division is `0/0 = NaN` and `NaN.toFixed(10)` is the string `"NaN"`,
which is what gets hashed — the division is NOT guarded in the source. -/
def processMonteCarlo (F : FloatOps) (seed : String) (shardSize : Nat) :
    TaskResult :=
  let outs := xsOutputs seed (2 * shardSize)
  let inside := mcInside F outs shardSize
  let result :=
    if shardSize = 0 then "NaN"
    else F.toFixed 10 (F.fdiv (F.fmul 4 (inside : ℚ)) (shardSize : ℚ))
  ⟨sha256hex result, none⟩

/-- `processSimulation`: spectral pipeline, then mean and population
standard deviation of the magnitudes, formatted to 10 decimal places;
the formatted string is both hashed and returned as the value. -/
def processSimulation (F : FloatOps) (seed : String) (shardSize : Nat) :
    TaskResult :=
  let s := spectrum F seed shardSize
  let n := s.1
  let mag := magAt F s.2.1 s.2.2
  let sum := (List.range n).foldl (fun acc i => F.fadd acc (mag i)) 0
  let mean := F.fdiv sum (n : ℚ)
  let variance :=
    (List.range n).foldl
      (fun acc i =>
        F.fadd acc (F.fmul (F.fsub (mag i) mean) (F.fsub (mag i) mean)))
      0
  let stddev := F.fsqrt (F.fdiv variance (n : ℚ))
  let valueStr := F.toFixed 10 stddev
  ⟨sha256hex valueStr, some valueStr⟩

/-- The first `prefixLen` characters of a string (JS `substring(0, k)`;
code-unit counting coincides with character counting on the ASCII hex
digests this is applied to). -/
def strTake (s : String) (k : Nat) : String := String.mk (s.data.take k)

/-- `hh.startsWith(pfx)` on the character lists. -/
def leadsWith : List Char → List Char → Bool
  | _, [] => true
  | [], _ :: _ => false
  | c :: cs, d :: ds => c = d && leadsWith cs ds

/-- JS `String.prototype.startsWith`. -/
def strStarts (s pfx : String) : Bool := leadsWith s.data pfx.data

/-- The search/verification prefix shared by Hash search and Candidate
verification (both recompute it identically in the source):
`prefixLen = clamp(floor(log2(shardSize+1)/4), 2, 5)` and the prefix is
the first `prefixLen` hex characters of `hash(seed)`. -/
def searchPfx (seed : String) (shardSize : Nat) : String :=
  strTake (sha256hex seed) (min (max 2 (nlog2 (shardSize + 1) / 4)) 5)

/-- The nonce loop of Hash search, from `nonce` with `fuel` iterations
remaining (the source runs nonce = 0..500000 inclusive, i.e. fuel
500001); on exhaustion it returns the NOTFOUND result. -/
def searchLoop (seed pfx : String) : Nat → Nat → TaskResult
  | _, 0 => ⟨sha256hex "NOTFOUND", some "NOTFOUND"⟩
  | nonce, fuel + 1 =>
      let hh := sha256hex (seed ++ ":" ++ toString nonce)
      if strStarts hh pfx then ⟨sha256hex hh, some hh⟩
      else searchLoop seed pfx (nonce + 1) fuel

/-- `processHashSearch`: find the first nonce in 0..500000 whose hash has
the target prefix. -/
def processHashSearch (seed : String) (shardSize : Nat) : TaskResult :=
  searchLoop seed (searchPfx seed shardSize) 0 500001

/-- `verifyCandidate`: recompute the prefix; a non-empty candidate that
starts with it is valid (JS `if (candidate && candidate.startsWith(prefix))`,
where the empty string is falsy). -/
def verifyCandidate (seed : String) (shardSize : Nat) (candidate : String) :
    TaskResult :=
  let pfx := searchPfx seed shardSize
  if candidate ≠ "" ∧ strStarts candidate pfx = true then
    ⟨sha256hex candidate, some "valid"⟩
  else ⟨sha256hex ("INVALID:" ++ candidate), some "invalid"⟩

/-- `processSignalClassify`: over bins `1 ≤ i < n/2` compute max and
running sum of magnitudes; `par = maxMag / avgMag` with
`avgMag = sumMag / (n/2 - 1)` (the denominator `n/2 - 1` is the exact
double value, modelled as the rational `n/2 - 1`; for `n ≤ 2` the JS
quotients are NaN or ±0 and the label comparisons below are all false in
JS — the model's `F.fdiv` value is arbitrary there, which no theorem
relies on).  Thresholds: par>10 PERIODIC, par>5 QUASI_PERIODIC, par>2
STRUCTURED_NOISE, else WHITE_NOISE. -/
def processSignalClassify (F : FloatOps) (seed : String) (shardSize : Nat) :
    TaskResult :=
  let s := spectrum F seed shardSize
  let n := s.1
  let mag := magAt F s.2.1 s.2.2
  let mm :=
    (List.range (n / 2 - 1)).foldl
      (fun (acc : ℚ × ℚ) i0 =>
        let m := mag (i0 + 1)
        (if m > acc.1 then m else acc.1, F.fadd acc.2 m))
      (0, 0)
  let avgMag := F.fdiv mm.2 ((n : ℚ) / 2 - 1)
  let par := F.fdiv mm.1 avgMag
  let classification :=
    if par > 10 then "PERIODIC"
    else if par > 5 then "QUASI_PERIODIC"
    else if par > 2 then "STRUCTURED_NOISE"
    else "WHITE_NOISE"
  ⟨sha256hex classification, some classification⟩

/-- The `bestIdx` scan of `judgeResponses`: the absolute index of the
first matching response, or 0 (the initial `bestIdx`) if none matches. -/
def judgeFind (own : Option String) : List ResponseData → Nat → Nat
  | [], _ => 0
  | r :: rest, i => if r.output_value = own then i else judgeFind own rest (i + 1)

/-- A default response value (never selected in-bounds; models the JS
array indexing that is always in bounds at the use site). -/
def dfltResp : ResponseData := ⟨"", none, none⟩

/-- `judgeResponses`: recompute the own classification; with no responses
return the own hash and value "0"; otherwise return the first matching
response's hash and the chosen index as a decimal string. -/
def judgeResponses (F : FloatOps) (seed : String) (shardSize : Nat)
    (responses : List ResponseData) : TaskResult :=
  let own := processSignalClassify F seed shardSize
  if responses.length = 0 then ⟨own.output_hash, some "0"⟩
  else
    let bestIdx := judgeFind own.output_value responses 0
    ⟨(responses.getD bestIdx dfltResp).output_hash, some (toString bestIdx)⟩

/-! ## Task dispatcher, src/index.ts lines 304-348 -/

/-- The Task record.  `extra` is the `[key: string]: unknown` catch-all;
the dispatcher never inspects it or `task_id`. -/
structure TaskData where
  task_id : String
  task_type : String
  seed : String
  shard_size : Nat
  consensus_mode : String
  phase : String
  description : Option String
  candidate : Option String
  responses : Option (List ResponseData)
  n_responses : Option Nat
  extra : List (String × String)
deriving DecidableEq, Repr

/-- JS truthiness of the optional `candidate` string field: `undefined`
and the empty string are falsy. -/
def candTruthy : Option String → Prop
  | none => False
  | some c => c ≠ ""

instance : DecidablePred candTruthy := fun c => by
  cases c <;> simp [candTruthy] <;> infer_instance

/-- `processTask`: the source's nested `if (consensus_mode === ...) { if
(phase === ...) return ...; }` chain, flattened into the equivalent
first-match if-else chain (every inner branch returns, so control falls
through exactly as written here).  An array-valued `responses` field is
truthy even when empty. -/
def processTask (F : FloatOps) (task : TaskData) : TaskResult :=
  if task.consensus_mode = "verify" ∧ task.phase = "search" then
    processHashSearch task.seed task.shard_size
  else if task.consensus_mode = "verify" ∧ task.phase = "verify" ∧
      candTruthy task.candidate then
    verifyCandidate task.seed task.shard_size (task.candidate.getD "")
  else if task.consensus_mode = "vote" ∧ task.phase = "produce" then
    processSignalClassify F task.seed task.shard_size
  else if task.consensus_mode = "vote" ∧ task.phase = "judge" ∧
      task.responses ≠ none then
    judgeResponses F task.seed task.shard_size (task.responses.getD [])
  else if task.consensus_mode = "numeric_tolerance" then
    processSimulation F task.seed task.shard_size
  else if task.task_type = "fft" ∨ task.task_type = "spectral" then
    processFFT F task.seed task.shard_size
  else if task.task_type = "monte_carlo" then
    processMonteCarlo F task.seed task.shard_size
  else if task.task_type = "sha_chain" then
    processShaChain task.seed task.shard_size
  else processShaChain task.seed task.shard_size

/-! ## Spec-side definitions

The following definitions transcribe the SPECIFICATION's wording (spec.md
§4.3, §4.4, §4.1) rather than the source, for the refinement theorems
that compare the two. -/

/-- Spec §4.4: the number (1-9) of the first matching dispatcher rule, in
the spec's fixed order; 9 is the default rule. -/
def ruleOf (t : TaskData) : Nat :=
  if t.consensus_mode = "verify" ∧ t.phase = "search" then 1
  else if t.consensus_mode = "verify" ∧ t.phase = "verify" ∧
      candTruthy t.candidate then 2
  else if t.consensus_mode = "vote" ∧ t.phase = "produce" then 3
  else if t.consensus_mode = "vote" ∧ t.phase = "judge" ∧
      t.responses ≠ none then 4
  else if t.consensus_mode = "numeric_tolerance" then 5
  else if t.task_type = "fft" ∨ t.task_type = "spectral" then 6
  else if t.task_type = "monte_carlo" then 7
  else if t.task_type = "sha_chain" then 8
  else 9

/-- Spec §4.4: the processor invoked for each rule number, on the Task's
own fields; the default rule 9 is SHA chain on the Task's own seed and
shard size. -/
def runRule (F : FloatOps) (r : Nat) (t : TaskData) : TaskResult :=
  match r with
  | 1 => processHashSearch t.seed t.shard_size
  | 2 => verifyCandidate t.seed t.shard_size (t.candidate.getD "")
  | 3 => processSignalClassify F t.seed t.shard_size
  | 4 => judgeResponses F t.seed t.shard_size (t.responses.getD [])
  | 5 => processSimulation F t.seed t.shard_size
  | 6 => processFFT F t.seed t.shard_size
  | 7 => processMonteCarlo F t.seed t.shard_size
  | 8 => processShaChain t.seed t.shard_size
  | _ => processShaChain t.seed t.shard_size

/-- Spec §4.1: the seed fold as a left fold over the code units. -/
def xsInitSpec (seed : String) : Nat × Nat :=
  let p :=
    (utf16Units seed).foldl
      (fun (q : Nat × Nat) u => ((q.1 * 31 + u) % m32, (q.2 * 37 + u) % m32))
      (0, 0)
  (if p.1 = 0 then 1 else p.1, if p.2 = 0 then 1 else p.2)

/-- The state after `k` generator steps from the initial state of `seed`. -/
def xsState (seed : String) (k : Nat) : Nat × Nat :=
  (fun st => (xsStep st).1)^[k] (xsInit seed)

/-- Spec §4.3, Hash search row: the first nonce in 0..500000 inclusive
whose hash starts with the prefix wins; with no match the result is the
NOTFOUND pair. -/
def hashSearchSpec (seed : String) (shardSize : Nat) : TaskResult :=
  let pfx := searchPfx seed shardSize
  match (List.range 500001).find?
      (fun k => strStarts (sha256hex (seed ++ ":" ++ toString k)) pfx) with
  | some k =>
      let hh := sha256hex (seed ++ ":" ++ toString k)
      ⟨sha256hex hh, some hh⟩
  | none => ⟨sha256hex "NOTFOUND", some "NOTFOUND"⟩

/-- Spec §4.3, Response judging row: the index of the first response whose
`output_value` equals the own label, if any. -/
def firstMatchIdx (own : Option String) : List ResponseData → Option Nat
  | [] => none
  | r :: rest =>
      if r.output_value = own then some 0
      else (firstMatchIdx own rest).map (· + 1)

/-- Spec §4.3, Response judging row: recompute the own label; empty
response list gives the own hash with value "0"; otherwise the first
matching index (default 0 when none match), returning that response's
hash and the index rendered in decimal. -/
def judgeSpec (F : FloatOps) (seed : String) (shardSize : Nat)
    (responses : List ResponseData) : TaskResult :=
  let own := processSignalClassify F seed shardSize
  if responses.isEmpty then ⟨own.output_hash, some "0"⟩
  else
    let idx := (firstMatchIdx own.output_value responses).getD 0
    ⟨(responses.getD idx dfltResp).output_hash, some (toString idx)⟩

/-! ## Concrete example tasks used by the dispatcher theorems -/

/-- The spec's precedence test Task: verify/search with task_type
monte_carlo. -/
def precTask : TaskData :=
  ⟨"t", "monte_carlo", "s", 16, "verify", "search", none, none, none, none, []⟩

/-- A verify/verify Task with an empty (falsy) candidate: must fall
through to the task_type rules. -/
def fallTask : TaskData :=
  ⟨"t", "monte_carlo", "s", 16, "verify", "verify", none, some "", none,
   none, []⟩

/-- A Task matching no rule: unknown type, unknown mode and phase. -/
def defTask : TaskData :=
  ⟨"t", "mystery", "d", 7, "other_mode", "other_phase", none, none, none,
   none, []⟩

/-- A monte_carlo Task with shard size 0 (consensus fields unrecognized). -/
def detTask1 : TaskData :=
  ⟨"id1", "monte_carlo", "s", 0, "m", "p", none, none, none, none, []⟩

/-- Same six claimed determinism fields as `detTask1` but task_type
sha_chain. -/
def detTask2 : TaskData :=
  ⟨"id2", "sha_chain", "s", 0, "m", "p", none, none, none, none, []⟩

/-- Same processed fields as `detTask1` but different task_id and extra
payload. -/
def detTask1b : TaskData :=
  ⟨"idX", "monte_carlo", "s", 0, "m", "p", some "desc", none, none, some 3,
   [("k", "v")]⟩

/-! ## Helper lemmas -/

/-- The fuel-based log2 agrees with `Nat.log2` whenever fuel suffices. -/
theorem nlog2Go_eq_log2 : ∀ fuel n, n ≤ fuel → nlog2Go fuel n = Nat.log2 n := by
  intro fuel
  induction fuel with
  | zero =>
      intro n hn
      interval_cases n
      simp [nlog2Go, Nat.log2]
  | succ fuel ih =>
      intro n hn
      rw [nlog2Go, Nat.log2]
      by_cases h2 : n ≥ 2
      · simp only [h2, if_true]
        rw [ih (n / 2) (by omega)]
      · simp [h2]

/-- `nlog2` computes `Nat.log2`. -/
theorem nlog2_eq_log2 (n : Nat) : nlog2 n = Nat.log2 n :=
  nlog2Go_eq_log2 n n le_rfl

/-- The doubling loop from `2^k` lands on `2^(max k (clog 2 s))`, the
smallest power of two that is at least both `2^k` and `s`, whenever the
fuel covers the remaining `clog 2 s - k` iterations. -/
theorem fftLenGo_pow :
    ∀ fuel k s, Nat.clog 2 s ≤ k + fuel →
      fftLenGo s (2 ^ k) fuel = 2 ^ max k (Nat.clog 2 s) := by
  intro fuel
  induction fuel with
  | zero =>
      intro k s h
      rw [fftLenGo, Nat.max_eq_left (by omega)]
  | succ fuel ih =>
      intro k s h
      rw [fftLenGo]
      by_cases hlt : 2 ^ k < s
      · have hk : k < Nat.clog 2 s := by
          rcases Nat.lt_or_ge k (Nat.clog 2 s) with h' | h'
          · exact h'
          · have hs : s ≤ 2 ^ k :=
              (Nat.le_pow_iff_clog_le (by norm_num : (1 : Nat) < 2)).mpr h'
            omega
        have : (2 : Nat) ^ k * 2 = 2 ^ (k + 1) := by ring
        rw [if_pos hlt, this, ih (k + 1) s (by omega)]
        rw [Nat.max_eq_right (by omega), Nat.max_eq_right (by omega)]
      · have : Nat.clog 2 s ≤ k :=
          (Nat.le_pow_iff_clog_le (by norm_num)).mp (by omega)
        rw [if_neg hlt, Nat.max_eq_left this]

/-- `fftLen` in closed form: the smallest power of two ≥ the shard size. -/
theorem fftLen_eq_pow_clog (s : Nat) : fftLen s = 2 ^ Nat.clog 2 s := by
  have h1 : Nat.clog 2 s ≤ 0 + s := by
    simpa using (Nat.le_pow_iff_clog_le (by norm_num : (1 : Nat) < 2)).mp
      (Nat.le_of_lt (Nat.lt_two_pow s))
  simpa using fftLenGo_pow s 0 s h1

/-- `fftLen` is idempotent: it fixes every power of two it produces. -/
theorem fftLen_idem (s : Nat) : fftLen (fftLen s) = fftLen s := by
  rw [fftLen_eq_pow_clog s, fftLen_eq_pow_clog (2 ^ Nat.clog 2 s),
    Nat.clog_pow 2 (Nat.clog 2 s) (by norm_num)]

/-- `toInt32` is the identity on the signed 32-bit range. -/
theorem toInt32_eq_self (x : Int) (h0 : -2147483648 ≤ x)
    (h1 : x < 2147483648) : toInt32 x = x := by
  unfold toInt32
  rw [Int.emod_eq_of_lt (by omega) (by omega)]
  omega

/-- On the terminating range (`s ≤ 2^30`), the signed 32-bit loop from
state `2^k` never wraps and lands on `2^(max k (clog 2 s))`, given fuel
for the remaining doublings plus the final failed test. -/
theorem fftLenGoJS_pow :
    ∀ fuel k s, s ≤ 2 ^ 30 → k ≤ 30 →
      max k (Nat.clog 2 s) < k + fuel →
      fftLenGoJS s ((2 : Int) ^ k) fuel =
        some ((2 : Int) ^ max k (Nat.clog 2 s)) := by
  intro fuel
  induction fuel with
  | zero =>
      intro k s _ _ h3
      have := Nat.le_max_left k (Nat.clog 2 s)
      omega
  | succ fuel ih =>
      intro k s h1 h2 h3
      rw [fftLenGoJS]
      by_cases hlt : (2 : Nat) ^ k < s
      · have hk : k < Nat.clog 2 s := by
          rcases Nat.lt_or_ge k (Nat.clog 2 s) with h' | h'
          · exact h'
          · have hs : s ≤ 2 ^ k :=
              (Nat.le_pow_iff_clog_le (by norm_num : (1 : Nat) < 2)).mpr h'
            omega
        have hk30 : k < 30 := by
          rcases Nat.lt_or_ge k 30 with h' | h'
          · exact h'
          · have hcap : (2 : Nat) ^ 30 ≤ 2 ^ k :=
              Nat.pow_le_pow_right (by norm_num) h'
            norm_num at hcap
            omega
        rw [if_pos (by exact_mod_cast hlt)]
        have hdbl : toInt32 ((2 : Int) ^ k * 2) = (2 : Int) ^ (k + 1) := by
          rw [← pow_succ]
          have hble : (2 : Nat) ^ (k + 1) < 2147483648 := by
            have : (2 : Nat) ^ (k + 1) ≤ 2 ^ 30 :=
              Nat.pow_le_pow_right (by norm_num) (by omega)
            norm_num at this ⊢
            omega
          have hnn : (0 : Int) ≤ (2 : Int) ^ (k + 1) := by positivity
          refine toInt32_eq_self _ (by omega) ?_
          exact_mod_cast hble
        rw [hdbl, ih (k + 1) s h1 (by omega) (by omega)]
        rw [Nat.max_eq_right (by omega), Nat.max_eq_right (by omega)]
      · have hcl : Nat.clog 2 s ≤ k :=
          (Nat.le_pow_iff_clog_le (by norm_num : (1 : Nat) < 2)).mp (by omega)
        rw [if_neg (by exact_mod_cast hlt), Nat.max_eq_left hcl]

/-- On the terminating range the source loop computes exactly `fftLen`. -/
theorem fftLenJS_eq_fftLen (s : Nat) (hs : s ≤ 2 ^ 30) :
    fftLenJS s = some ((fftLen s : Nat) : Int) := by
  have hclog : Nat.clog 2 s ≤ 30 :=
    (Nat.le_pow_iff_clog_le (by norm_num : (1 : Nat) < 2)).mp hs
  have h := fftLenGoJS_pow 40 0 s hs (by norm_num) (by simp; omega)
  simp only [pow_zero] at h
  unfold fftLenJS
  rw [h, fftLen_eq_pow_clog s]
  simp

/-- From the absorbing state 0 the loop never exits (for positive shard
size), whatever the fuel. -/
theorem fftLenGoJS_zero (s : Nat) (hs : 0 < s) :
    ∀ fuel, fftLenGoJS s 0 fuel = none := by
  intro fuel
  induction fuel with
  | zero => rfl
  | succ fuel ih =>
      rw [fftLenGoJS, if_pos (by exact_mod_cast hs)]
      have h0 : toInt32 (0 * 2) = 0 := by decide
      rw [h0, ih]

/-- From the wrapped state `-2^31` the loop steps to the absorbing 0 and
never exits, whatever the fuel. -/
theorem fftLenGoJS_wrapped (s : Nat) (hs : 2 ^ 30 < s) :
    ∀ fuel, fftLenGoJS s (-2147483648) fuel = none := by
  intro fuel
  cases fuel with
  | zero => rfl
  | succ fuel =>
      have hspos : 0 < s :=
        Nat.lt_of_lt_of_le (by norm_num : 0 < 2 ^ 30) (Nat.le_of_lt hs)
      have hpos : (0 : Int) < (s : Int) := by exact_mod_cast hspos
      rw [fftLenGoJS, if_pos (by omega)]
      have hw : toInt32 (-2147483648 * 2) = 0 := by decide
      rw [hw, fftLenGoJS_zero s hspos fuel]

/-- For `shard_size > 2^30` the loop diverges from every power-of-two
state up to `2^30` (in particular from the initial state 1), for EVERY
fuel: `none` here is genuine non-termination, not fuel exhaustion. -/
theorem fftLenGoJS_pow_diverges (s : Nat) (hs : 2 ^ 30 < s) :
    ∀ fuel k, k ≤ 30 → fftLenGoJS s ((2 : Int) ^ k) fuel = none := by
  intro fuel
  induction fuel with
  | zero => intro k _; rfl
  | succ fuel ih =>
      intro k hk
      have hlt : (2 : Nat) ^ k < s :=
        Nat.lt_of_le_of_lt (Nat.pow_le_pow_right (by norm_num) hk) hs
      rw [fftLenGoJS, if_pos (by exact_mod_cast hlt)]
      rcases Nat.lt_or_ge k 30 with h30 | h30
      · have hdbl : toInt32 ((2 : Int) ^ k * 2) = (2 : Int) ^ (k + 1) := by
          rw [← pow_succ]
          have hble : (2 : Nat) ^ (k + 1) < 2147483648 := by
            have : (2 : Nat) ^ (k + 1) ≤ 2 ^ 30 :=
              Nat.pow_le_pow_right (by norm_num) (by omega)
            norm_num at this ⊢
            omega
          have hnn : (0 : Int) ≤ (2 : Int) ^ (k + 1) := by positivity
          refine toInt32_eq_self _ (by omega) ?_
          exact_mod_cast hble
        rw [hdbl]
        exact ih (k + 1) (by omega)
      · have hk30 : k = 30 := by omega
        subst hk30
        have hw : toInt32 ((2 : Int) ^ 30 * 2) = -2147483648 := by decide
        rw [hw]
        exact fftLenGoJS_wrapped s hs fuel

/-- For `shard_size > 2^30` the source never computes a length. -/
theorem fftLenJS_none (s : Nat) (hs : 2 ^ 30 < s) : fftLenJS s = none := by
  unfold fftLenJS
  have h := fftLenGoJS_pow_diverges s hs 40 0 (by norm_num)
  simpa using h

/-- The index-carrying seed fold is the left fold of the spec. -/
theorem xsInitGo_foldl :
    ∀ us s0 s1,
      xsInitGo us s0 s1 =
        us.foldl
          (fun (q : Nat × Nat) u => ((q.1 * 31 + u) % m32, (q.2 * 37 + u) % m32))
          (s0, s1) := by
  intro us
  induction us with
  | nil => intro s0 s1; rfl
  | cons u rest ih => intro s0 s1; rw [xsInitGo, List.foldl_cons, ih]

/-- The generator's output list, characterised pointwise: the `k`-th
output is the output component of the step applied to the `k`-th state. -/
theorem xsOutputsGo_map :
    ∀ count st,
      xsOutputsGo st count =
        (List.range count).map
          (fun k => (xsStep ((fun s => (xsStep s).1)^[k] st)).2) := by
  intro count
  induction count with
  | zero => intro st; rfl
  | succ count ih =>
      intro st
      rw [xsOutputsGo, ih ((xsStep st).1), List.range_succ_eq_map,
        List.map_cons, List.map_map]
      refine congrArg₂ _ rfl (congrArg₂ _ (funext fun k => ?_) rfl)
      simp [Function.comp, Function.iterate_succ_apply]

/-- The nonce loop computes the first match over the remaining nonce
range `range' nonce fuel`. -/
theorem searchLoop_eq_find (seed pfx : String) :
    ∀ fuel nonce,
      searchLoop seed pfx nonce fuel =
        match (List.range' nonce fuel).find?
            (fun k => strStarts (sha256hex (seed ++ ":" ++ toString k)) pfx) with
        | some k =>
            ⟨sha256hex (sha256hex (seed ++ ":" ++ toString k)),
             some (sha256hex (seed ++ ":" ++ toString k))⟩
        | none => ⟨sha256hex "NOTFOUND", some "NOTFOUND"⟩ := by
  intro fuel
  induction fuel with
  | zero => intro nonce; rfl
  | succ fuel ih =>
      intro nonce
      rw [searchLoop, List.range'_succ, List.find?_cons]
      by_cases hm : strStarts (sha256hex (seed ++ ":" ++ toString nonce)) pfx
      · simp only [hm, if_true]
      · simp only [hm, if_false, Bool.false_eq_true, ih (nonce + 1)]

/-- A found hash-search result records a nonce hash with the target
prefix, and its `output_hash` is the hash of the found value. -/
theorem searchLoop_found (seed pfx : String) :
    ∀ fuel nonce h,
      (searchLoop seed pfx nonce fuel).output_value = some h →
      h ≠ "NOTFOUND" →
      (searchLoop seed pfx nonce fuel).output_hash = sha256hex h ∧
        strStarts h pfx = true ∧
        ∃ k : Nat, h = sha256hex (seed ++ ":" ++ toString k) := by
  intro fuel
  induction fuel with
  | zero =>
      intro nonce h hv hn
      exact absurd (Option.some_inj.mp hv).symm hn
  | succ fuel ih =>
      intro nonce h hv hn
      rw [searchLoop] at hv ⊢
      by_cases hm : strStarts (sha256hex (seed ++ ":" ++ toString nonce)) pfx
      · simp only [hm, if_true] at hv ⊢
        obtain rfl : sha256hex (seed ++ ":" ++ toString nonce) = h :=
          Option.some_inj.mp hv
        exact ⟨rfl, hm, nonce, rfl⟩
      · simp only [hm, if_false, Bool.false_eq_true] at hv ⊢
        exact ih (nonce + 1) h hv hn

/-- Every SHA-256 hex digest has 64 characters. -/
theorem sha256hex_length (s : String) : (sha256hex s).length = 64 := by
  simp [sha256hex, String.length, wordHex]

/-- The judging scan with running index equals the spec's first-match
index (shifted by the start index), with 0 on no match. -/
theorem judgeFind_eq (own : Option String) :
    ∀ rs i,
      judgeFind own rs i =
        match firstMatchIdx own rs with
        | some j => i + j
        | none => 0 := by
  intro rs
  induction rs with
  | nil => intro i; rfl
  | cons r rest ih =>
      intro i
      rw [judgeFind, firstMatchIdx]
      by_cases hm : r.output_value = own
      · simp [hm]
      · simp only [hm, if_false, ih (i + 1)]
        cases firstMatchIdx own rest with
        | none => simp
        | some j =>
            simp only [Option.map_some']
            ring

/-! ## Claim theorems -/

/-- C1: `processTask` selects a processor by evaluating the nine rules of
spec §4.4 in their fixed order with the first matching rule winning (it
equals `runRule` of `ruleOf`, the spec's ordered first-match rule
selection); it is a total Lean function, so it never raises. In
particular a verify/search Task with task_type monte_carlo routes to Hash
search (rule 1); a verify/verify Task with an empty candidate falls
through to its task_type rule (rule 7, Monte Carlo); and a Task matching
no rule is processed by SHA chain on its own seed and shard size
(rule 9). -/
theorem processTask_dispatch_order (F : FloatOps) (t : TaskData) :
    processTask F t = runRule F (ruleOf t) t ∧
    ruleOf precTask = 1 ∧
    processTask F precTask = processHashSearch "s" 16 ∧
    ruleOf fallTask = 7 ∧
    processTask F fallTask = processMonteCarlo F "s" 16 ∧
    ruleOf defTask = 9 ∧
    processTask F defTask = processShaChain "d" 7 := by
  refine ⟨?_, by decide, by simp [processTask, precTask],
    by decide, by simp [processTask, fallTask, candTruthy],
    by decide, by simp [processTask, defTask]⟩
  unfold processTask ruleOf runRule
  split_ifs <;> rfl

/-- C2 (code bug): the Monte Carlo processor does NOT fail on
`shard_size = 0`: the unguarded `(4.0 * inside) / shardSize` is `0/0 =
NaN`, `NaN.toFixed(10)` is the string `"NaN"`, and the processor returns
its hash as a normal result, for every seed and every float semantics. -/
theorem processMonteCarlo_zero_unguarded (F : FloatOps) (seed : String) :
    processMonteCarlo F seed 0 = ⟨sha256hex "NaN", none⟩ ∧
    sha256hex "NaN" =
      "d5b592c05dc25b5032553f1b27f4139be95e881f73db33b02b05ab20c3f9981e" :=
  ⟨rfl, by decide⟩

/-- C3 (counterexample): at seed "s", SHA chain with shard_size 0 does
NOT return `hash(seed)` — the claim's equation is false. -/
theorem shaChain_zero_hash_claim_false :
    decide ((processShaChain "s" 0).output_hash = sha256hex "s") = false := by
  decide

/-- C3 (amended): for every seed, SHA chain with shard_size 0 applies
zero hash rounds, returning the seed itself as `output_hash`. -/
theorem processShaChain_zero_eq_seed (seed : String) :
    processShaChain seed 0 = ⟨seed, none⟩ := rfl

/-- C4 (counterexample): at shard_size = 2^30 + 1 the claim's universal
fails: the smallest power of two ≥ shard_size is 2147483648 = 2^31, but
the source length loop never terminates — the signed 32-bit doubling
wraps 2^30 → −2^31 → 0 and the exit test never succeeds — so no FFT
length is ever computed. -/
theorem fftLen_wrap_claim_false :
    fftLenJS 1073741825 = none ∧ fftLen 1073741825 = 2147483648 :=
  ⟨by decide, by decide⟩

/-- C4 (amended): for every shard_size ≤ 2^30 — the whole range on which
the source loop terminates at all — the FFT length is the smallest power
of two ≥ shard_size (in closed form `2 ^ clog 2 s`): the loop's result
equals `fftLen`, which is a power of two at least `s`, below every power
of two ≥ `s`, equal to 1 for `s ≤ 1`; the eight sample shard sizes map
to the claimed lengths; each spectral kernel (Spectral, Simulation,
Signal classification) computes with exactly this length (replacing the
shard size by `fftLen s` leaves each kernel's result unchanged).  For
shard_size > 2^30 the signed 32-bit shift wraps and the loop never
terminates, computing no length (for every fuel). -/
theorem fftLen_smallest_pow2 (s : Nat) :
    (s ≤ 2 ^ 30 → fftLenJS s = some ((fftLen s : Nat) : Int)) ∧
    (2 ^ 30 < s → fftLenJS s = none) ∧
    fftLen s = 2 ^ Nat.clog 2 s ∧
    s ≤ fftLen s ∧
    (∀ k, s ≤ 2 ^ k → fftLen s ≤ 2 ^ k) ∧
    (s ≤ 1 → fftLen s = 1) ∧
    (fftLen 1 = 1 ∧ fftLen 2 = 2 ∧ fftLen 3 = 4 ∧ fftLen 5 = 8 ∧
      fftLen 8 = 8 ∧ fftLen 9 = 16 ∧ fftLen 8192 = 8192 ∧
      fftLen 8193 = 16384) ∧
    (∀ F seed,
      processFFT F seed s = processFFT F seed (fftLen s) ∧
      processSimulation F seed s = processSimulation F seed (fftLen s) ∧
      processSignalClassify F seed s =
        processSignalClassify F seed (fftLen s)) := by
  have h2 : (1 : Nat) < 2 := by norm_num
  have hpow := fftLen_eq_pow_clog s
  refine ⟨fftLenJS_eq_fftLen s, fftLenJS_none s, hpow, ?_, ?_, ?_, by decide, ?_⟩
  · rw [hpow]
    exact (Nat.le_pow_iff_clog_le h2).mpr le_rfl
  · intro k hk
    rw [hpow]
    exact Nat.pow_le_pow_right (by norm_num)
      ((Nat.le_pow_iff_clog_le h2).mp hk)
  · intro hs1
    rw [hpow]
    have hc : Nat.clog 2 s ≤ 0 :=
      (Nat.le_pow_iff_clog_le h2).mp (by simpa using hs1)
    simp [Nat.le_zero.mp hc]
  · intro F seed
    have hspec : spectrum F seed s = spectrum F seed (fftLen s) := by
      unfold spectrum
      rw [fftLen_idem]
    exact ⟨by simp only [processFFT, hspec], by simp only [processSimulation, hspec],
      by simp only [processSignalClassify, hspec]⟩

/-- C4 witness: the conditional conjuncts instantiated — the loop agrees
with `fftLen` at s = 5, diverges at s = 2^30 + 1, minimality at s = 5
with k = 3, and the degenerate case at s = 1. -/
theorem fftLen_smallest_pow2_witness :
    ((5 : Nat) ≤ 2 ^ 30 ∧ fftLenJS 5 = some ((fftLen 5 : Nat) : Int)) ∧
    (2 ^ 30 < 1073741825 ∧ fftLenJS 1073741825 = none) ∧
    ((5 : Nat) ≤ 2 ^ 3 ∧ fftLen 5 ≤ 2 ^ 3) ∧
    ((1 : Nat) ≤ 1 ∧ fftLen 1 = 1) :=
  ⟨⟨by norm_num, (fftLen_smallest_pow2 5).1 (by norm_num)⟩,
   ⟨by norm_num, (fftLen_smallest_pow2 1073741825).2.1 (by norm_num)⟩,
   ⟨by norm_num, (fftLen_smallest_pow2 5).2.2.2.2.1 3 (by norm_num)⟩,
   ⟨le_rfl, (fftLen_smallest_pow2 1).2.2.2.2.2.1 (by norm_num)⟩⟩

/-- C5: the seeded generator folds the seed's code units left to right by
the two multiply-add recurrences mod 2^32 (the loop equals the spec's
left fold), the zero-guard leaves both accumulators positive, each step
computes the xorshift128+ update `x ^= x<<23; x ^= x>>>17; x ^= y;
x ^= y>>>26; s0 = y; s1 = x` with output `(s0 + s1) mod 2^32`, and the
output stream is a pure function of seed and position (same seed, same
sequence). -/
theorem xorshift_spec (seed : String) :
    xsInit seed = xsInitSpec seed ∧
    0 < (xsInit seed).1 ∧
    0 < (xsInit seed).2 ∧
    (∀ st : Nat × Nat,
      xsStep st =
        ((st.2,
          (st.1 ^^^ ((st.1 <<< 23) % m32)) ^^^
              ((st.1 ^^^ ((st.1 <<< 23) % m32)) >>> 17) ^^^ st.2 ^^^
            (st.2 >>> 26)),
         (st.2 +
            ((st.1 ^^^ ((st.1 <<< 23) % m32)) ^^^
                ((st.1 ^^^ ((st.1 <<< 23) % m32)) >>> 17) ^^^ st.2 ^^^
              (st.2 >>> 26))) % m32)) ∧
    (∀ st : Nat × Nat,
      (xsStep st).2 = ((xsStep st).1.1 + (xsStep st).1.2) % m32) ∧
    (∀ count,
      xsOutputs seed count =
        (List.range count).map (fun k => (xsStep (xsState seed k)).2)) := by
  refine ⟨?_, ?_, ?_, fun st => rfl, fun st => rfl, fun count => ?_⟩
  · unfold xsInit xsInitSpec
    rw [xsInitGo_foldl]
  · unfold xsInit
    dsimp only
    split_ifs <;> omega
  · unfold xsInit
    dsimp only
    split_ifs <;> omega
  · simp only [xsOutputs, xsState]
    exact xsOutputsGo_map count (xsInit seed)

/-- C6: Hash search equals its specification: target prefix of length
`clamp(floor(log2(shard_size+1)/4), 2, 5)` taken from `hash(seed)`, first
nonce in 0..500000 inclusive whose `hash(seed ++ ":" ++ nonce)` starts
with the prefix wins with result `(hash(h), h)`, and with no match the
result is `(hash("NOTFOUND"), "NOTFOUND")`.  The prefix length is always
between 2 and 5. -/
theorem processHashSearch_eq_spec (seed : String) (shardSize : Nat) :
    processHashSearch seed shardSize = hashSearchSpec seed shardSize ∧
    searchPfx seed shardSize =
      strTake (sha256hex seed)
        (min (max 2 (Nat.log2 (shardSize + 1) / 4)) 5) ∧
    2 ≤ min (max 2 (Nat.log2 (shardSize + 1) / 4)) 5 ∧
    min (max 2 (Nat.log2 (shardSize + 1) / 4)) 5 ≤ 5 := by
  refine ⟨?_, ?_, by omega, by omega⟩
  · unfold processHashSearch hashSearchSpec
    rw [searchLoop_eq_find, List.range_eq_range']
  · unfold searchPfx
    rw [nlog2_eq_log2]

/-- C7: Response judging recomputes the own Signal classification and
selects the first response whose `output_value` equals the own label
(defaulting to index 0, with the chosen response's hash and the decimal
index as value; empty responses give the own hash and "0") — it equals
the spec-side `judgeSpec`.  In particular, on responses
`[WHITE_NOISE, PERIODIC]` the selected index is 1 exactly when the own
label is PERIODIC, and 0 otherwise. -/
theorem judgeResponses_first_match (F : FloatOps) (seed : String)
    (shardSize : Nat) (responses : List ResponseData) :
    judgeResponses F seed shardSize responses =
      judgeSpec F seed shardSize responses ∧
    judgeResponses F seed shardSize [] =
      ⟨(processSignalClassify F seed shardSize).output_hash, some "0"⟩ ∧
    (∀ h0 h1 i0 i1,
      (judgeResponses F seed shardSize
          [⟨h0, some "WHITE_NOISE", i0⟩,
           ⟨h1, some "PERIODIC", i1⟩]).output_value =
        some
          (if (processSignalClassify F seed shardSize).output_value =
              some "PERIODIC" then "1" else "0")) := by
  refine ⟨?_, rfl, ?_⟩
  · unfold judgeResponses judgeSpec
    cases responses with
    | nil => rfl
    | cons r rest =>
        simp only [List.length_cons, List.isEmpty_cons, judgeFind_eq,
          Nat.add_one_ne_zero, if_false, Bool.false_eq_true]
        cases firstMatchIdx
            (processSignalClassify F seed shardSize).output_value (r :: rest) with
        | none => rfl
        | some j => simp
  · intro h0 h1 i0 i1
    by_cases hP :
        (processSignalClassify F seed shardSize).output_value = some "PERIODIC"
    · simp [judgeResponses, judgeFind, hP]
      rfl
    · by_cases hw :
          (processSignalClassify F seed shardSize).output_value =
            some "WHITE_NOISE"
      · simp [judgeResponses, judgeFind, hw, hP]
        rfl
      · have ha :
            ¬(some "WHITE_NOISE" =
              (processSignalClassify F seed shardSize).output_value) :=
          fun he => hw he.symm
        have hb :
            ¬(some "PERIODIC" =
              (processSignalClassify F seed shardSize).output_value) :=
          fun he => hP he.symm
        simp [judgeResponses, judgeFind, ha, hb, hP]
        rfl

/-- C8 (counterexample): two Tasks agreeing on all six claimed fields
(seed, shard_size, consensus_mode, phase, candidate, responses) but with
different task_type produce different Results: with shard size 0,
monte_carlo yields `hash("NaN")` while sha_chain yields the seed itself —
so the six listed fields do not determine the Result. -/
theorem processTask_six_fields_claim_false :
    detTask1.seed = detTask2.seed ∧
    detTask1.shard_size = detTask2.shard_size ∧
    detTask1.consensus_mode = detTask2.consensus_mode ∧
    detTask1.phase = detTask2.phase ∧
    detTask1.candidate = detTask2.candidate ∧
    detTask1.responses = detTask2.responses ∧
    decide (processTask ratF detTask1 = processTask ratF detTask2) = false :=
  ⟨rfl, rfl, rfl, rfl, rfl, rfl, by decide⟩

/-- C8 (amended): task processing reads nothing of a Task beyond (seed,
shard_size, task_type, consensus_mode, phase, candidate, responses): two
invocations on Tasks that agree on these seven fields — under the same
float semantics — yield identical Results, whatever their task_id and
unrecognized extra fields. -/
theorem processTask_core_fields_determine (F : FloatOps) (t1 t2 : TaskData)
    (h1 : t1.seed = t2.seed) (h2 : t1.shard_size = t2.shard_size)
    (h3 : t1.task_type = t2.task_type)
    (h4 : t1.consensus_mode = t2.consensus_mode) (h5 : t1.phase = t2.phase)
    (h6 : t1.candidate = t2.candidate) (h7 : t1.responses = t2.responses) :
    processTask F t1 = processTask F t2 := by
  unfold processTask
  rw [h1, h2, h3, h4, h5, h6, h7]

/-- C8 witness: Tasks differing only in task_id, description, n_responses
and extra payload process identically. -/
theorem processTask_core_fields_determine_witness :
    processTask ratF detTask1 = processTask ratF detTask1b :=
  processTask_core_fields_determine ratF detTask1 detTask1b rfl rfl rfl rfl
    rfl rfl rfl

/-- C10: whenever Hash search returns a found value `h` (any value other
than "NOTFOUND"), Candidate verification on the same seed and shard size
accepts `h` as valid with `output_hash = hash(h)`, which equals the Hash
search result's own `output_hash`. -/
theorem hashSearch_found_verifies (seed : String) (shardSize : Nat)
    (h : String)
    (hv : (processHashSearch seed shardSize).output_value = some h)
    (hnf : h ≠ "NOTFOUND") :
    verifyCandidate seed shardSize h = ⟨sha256hex h, some "valid"⟩ ∧
    (processHashSearch seed shardSize).output_hash = sha256hex h := by
  obtain ⟨hhash, hstart, k, hk⟩ :=
    searchLoop_found seed (searchPfx seed shardSize) 500001 0 h hv hnf
  have hne : h ≠ "" := by
    intro he
    have := sha256hex_length (seed ++ ":" ++ toString k)
    rw [← hk, he] at this
    simp [String.length] at this
  refine ⟨?_, hhash⟩
  unfold verifyCandidate
  rw [if_pos ⟨hne, hstart⟩]

/-- C10 witness: for seed "w14" with shard size 16, nonce 0 already
matches the prefix "f5", and the found candidate verifies. -/
theorem hashSearch_found_verifies_witness :
    verifyCandidate "w14" 16
        "f52a85f981a811ef106e6500f0fb978b407b7fa0e349d8b394bdff9cbf1f3c3d" =
      ⟨sha256hex
          "f52a85f981a811ef106e6500f0fb978b407b7fa0e349d8b394bdff9cbf1f3c3d",
        some "valid"⟩ ∧
    (processHashSearch "w14" 16).output_hash =
      sha256hex
        "f52a85f981a811ef106e6500f0fb978b407b7fa0e349d8b394bdff9cbf1f3c3d" :=
  hashSearch_found_verifies "w14" 16
    "f52a85f981a811ef106e6500f0fb978b407b7fa0e349d8b394bdff9cbf1f3c3d"
    (by decide) (by decide)

end GravitySwarm
